import Mathlib

/-!
Verification development for the montagerizer repository: the sequence-timing
and frame-preparation engine of a slideshow-video builder.  The repository
ships tests (src/test_create_movie.py, src/test_create_movie_simple.py) and an
example script, while the implementation module create_movie.py is not under
src/; the functions below are therefore modelled from the specification, and
every theorem is read against that model.
-/

namespace Montagerizer

/-- Modelled from the spec: create_movie.py is absent from src/ (only its
tests import it).  Section 4.1 of the spec gives the algorithm of
calculate_progressive_duration verbatim: let t = progress ** acceleration
(real power), result = startDuration + (endDuration - startDuration) * t.
Durations are real numbers of seconds. -/
noncomputable def calculate_progressive_duration (progress start_duration end_duration : ℝ)
    (acceleration : ℝ := 1.0) : ℝ :=
  start_duration + (end_duration - start_duration) * progress ^ acceleration

/-- Modelled from the spec: the error the Sequence Builder raises when both
pools are empty or the target duration is not positive. -/
inductive EmptyInputError where
  | emptyInput
deriving DecidableEq

/-- Modelled from the spec: one iteration of the Sequence Builder loop,
abstracted over the recursive continuation k.  The builder alternates the
pools in cyclic order (the spec leaves the size of a short block open; it is
modelled as one short entry between long entries), assigns the fixed
longDuration to long entries and the progressive duration at
progress = accumulated / target to short entries, and trims the entry that
reaches the target so the total lands on the target exactly. -/
noncomputable def loopBody (S L : List String) (T ld ss se sa : ℝ)
    (k : ℕ → ℕ → ℝ → Bool → List String × List ℝ)
    (si li : ℕ) (acc : ℝ) (flag : Bool) : List String × List ℝ :=
  if acc < T then
    if S = [] ∨ (flag = true ∧ L ≠ []) then
      let img := L.getD (li % L.length) ""
      if T ≤ acc + ld then ([img], [T - acc])
      else
        let r := k si (li + 1) (acc + ld) false
        (img :: r.1, ld :: r.2)
    else
      let img := S.getD (si % S.length) ""
      let d := calculate_progressive_duration (acc / T) ss se sa
      if T ≤ acc + d then ([img], [T - acc])
      else
        let r := k (si + 1) li (acc + d) true
        (img :: r.1, d :: r.2)
  else ([], [])

/-- Modelled from the spec: the fuelled Sequence Builder loop.  Each
iteration adds at least min longDuration (min shortStart shortEnd) seconds,
so a fuel of one more than target divided by that bound is enough; the fuel
argument only realises the termination of the Python while loop. -/
noncomputable def create_movie_sequence_loop (S L : List String) (T ld ss se sa : ℝ) :
    ℕ → ℕ → ℕ → ℝ → Bool → List String × List ℝ
  | 0, _, _, _, _ => ([], [])
  | n + 1, si, li, acc, flag =>
      loopBody S L T ld ss se sa (create_movie_sequence_loop S L T ld ss se sa n) si li acc flag

/-- Modelled from the spec: the fuel bound used by create_movie_sequence. -/
noncomputable def sequenceFuel (T ld ss se : ℝ) : ℕ :=
  Nat.ceil (T / min ld (min ss se)) + 1

/-- Modelled from the spec: create_movie_sequence, the Sequence Builder.
It fails with EmptyInputError when both pools are empty or the target
duration is not positive, and otherwise runs the alternating loop from an
empty accumulator, starting on the short pool, with both cyclic pool
indices at zero.  Default argument values follow the command surface of the
spec. -/
noncomputable def create_movie_sequence (images_short images_long : List String)
    (audio_duration : ℝ) (long_duration : ℝ := 3.0) (short_start_duration : ℝ := 0.5)
    (short_end_duration : ℝ := 0.1) (short_acceleration : ℝ := 1.0) :
    Except EmptyInputError (List String × List ℝ) :=
  if (images_short = [] ∧ images_long = []) ∨ audio_duration ≤ 0 then
    .error .emptyInput
  else
    .ok (create_movie_sequence_loop images_short images_long audio_duration long_duration
      short_start_duration short_end_duration short_acceleration
      (sequenceFuel audio_duration long_duration short_start_duration short_end_duration)
      0 0 0 false)

/-- Modelled from the spec: a source image as read by the image-I/O
collaborator — a width, a height, and a pixel lookup (row, column) giving a
4-channel color value; an image without a transparency channel is the case
in which the fourth channel is constant. -/
structure SourceImage where
  width : ℕ
  height : ℕ
  pixel : ℕ → ℕ → ℕ × ℕ × ℕ × ℕ

/-- Modelled from the spec: flattening to a 3-channel color representation
simply drops the transparency channel, keeping the underlying color
values. -/
def flattenPixel (p : ℕ × ℕ × ℕ × ℕ) : ℕ × ℕ × ℕ :=
  (p.1, p.2.1, p.2.2.1)

/-- Modelled from the spec: a NormalizedFrame, a target-sized 3-channel
pixel buffer addressed by (row, column). -/
structure NormalizedFrame where
  width : ℕ
  height : ℕ
  pixel : ℕ → ℕ → ℕ × ℕ × ℕ

/-- Modelled from the spec: the uniform scale factor
min(targetWidth / sourceWidth, targetHeight / sourceHeight). -/
def scaleFactor (img : SourceImage) (target : ℕ × ℕ) : ℚ :=
  min ((target.1 : ℚ) / (img.width : ℚ)) ((target.2 : ℚ) / (img.height : ℚ))

/-- Modelled from the spec: the width round(sourceWidth * scale) of the
resized image. -/
def resizedWidth (img : SourceImage) (target : ℕ × ℕ) : ℕ :=
  (round ((img.width : ℚ) * scaleFactor img target)).toNat

/-- Modelled from the spec: the height round(sourceHeight * scale) of the
resized image. -/
def resizedHeight (img : SourceImage) (target : ℕ × ℕ) : ℕ :=
  (round ((img.height : ℚ) * scaleFactor img target)).toNat

/-- Modelled from the spec: the horizontal paste offset
(targetWidth - resizedWidth) // 2. -/
def pasteOffsetX (img : SourceImage) (target : ℕ × ℕ) : ℕ :=
  (target.1 - resizedWidth img target) / 2

/-- Modelled from the spec: the vertical paste offset
(targetHeight - resizedHeight) // 2. -/
def pasteOffsetY (img : SourceImage) (target : ℕ × ℕ) : ℕ :=
  (target.2 - resizedHeight img target) / 2

/-- Modelled from the spec: resize_image_to_standard, the Image Normalizer.
It allocates a target-sized black buffer and pastes the aspect-preserving
resize of the flattened source centered at the paste offsets.  The spec
leaves the resampling filter open (a high-quality filter); sampling is
modelled pointwise from the source, which the claims do not depend on. -/
def resize_image_to_standard (img : SourceImage) (target : ℕ × ℕ := (1920, 1080)) :
    NormalizedFrame where
  width := target.1
  height := target.2
  pixel := fun y x =>
    if pasteOffsetX img target ≤ x ∧ x < pasteOffsetX img target + resizedWidth img target ∧
        pasteOffsetY img target ≤ y ∧ y < pasteOffsetY img target + resizedHeight img target then
      flattenPixel (img.pixel
        ((y - pasteOffsetY img target) * img.height / resizedHeight img target)
        ((x - pasteOffsetX img target) * img.width / resizedWidth img target))
    else (0, 0, 0)

/-- A square all-green opaque source image, as in the aspect-ratio test. -/
def squareSource : SourceImage :=
  ⟨100, 100, fun _ _ => (0, 255, 0, 255)⟩

/-- A source much wider than tall, as in the letterbox test. -/
def wideSource : SourceImage :=
  ⟨2000, 100, fun _ _ => (0, 0, 255, 255)⟩

/-- A source much taller than wide, as in the pillarbox test. -/
def tallSource : SourceImage :=
  ⟨100, 2000, fun _ _ => (255, 255, 0, 255)⟩

/-- A square source with a non-trivial transparency channel, as in the
different-formats test. -/
def rgbaSource : SourceImage :=
  ⟨100, 100, fun _ _ => (255, 0, 0, 128)⟩

/-- A file in a directory listing: a path name, an extension and a
modification time. -/
structure FileEntry where
  name : String
  ext : String
  mtime : ℚ

/-- Modelled from the spec: the known set of image file extensions the
directory scan collaborator recognizes. -/
def IMAGE_EXTENSIONS : List String :=
  [".png", ".jpg", ".jpeg", ".gif", ".bmp"]

/-- Insertion into a list already ordered by ascending modification time. -/
def insertByMtime (e : FileEntry) : List FileEntry → List FileEntry
  | [] => [e]
  | f :: fs => if e.mtime ≤ f.mtime then e :: f :: fs else f :: insertByMtime e fs

/-- Modelled from the spec: get_image_files, the directory scan
collaborator: given the listing of an existing directory it keeps the
entries with a known image extension and orders them by modification time
ascending.  It is total — an empty or image-free listing yields the empty
list, never an error. -/
def get_image_files (listing : List FileEntry) : List FileEntry :=
  (listing.filter (fun e => IMAGE_EXTENSIONS.contains e.ext)).foldr insertByMtime []

/-- Modelled from the spec: the external world the orchestrator touches —
directory listings (none for a missing directory) and audio durations
(none for a missing audio file). -/
structure FileSystem where
  dirListing : String → Option (List FileEntry)
  audioDuration : String → Option ℝ

/-- Modelled from the spec: the error taxonomy visible at the orchestration
boundary. -/
inductive MovieError where
  | notFound
  | emptyInput
deriving DecidableEq

/-- Modelled from the spec: create_movie, the Movie Assembly Orchestrator
up to sequence construction.  It validates eagerly — a missing image
directory or audio file fails with notFound before any core computation —
then scans both pools and builds the sequence. -/
noncomputable def create_movie (fs : FileSystem)
    (images_short_dir images_long_dir audio_path : String)
    (long_duration : ℝ := 3.0) (short_start_duration : ℝ := 0.5)
    (short_end_duration : ℝ := 0.1) (short_acceleration : ℝ := 1.0) :
    Except MovieError (List String × List ℝ) :=
  match fs.dirListing images_short_dir with
  | none => .error .notFound
  | some shortListing =>
    match fs.dirListing images_long_dir with
    | none => .error .notFound
    | some longListing =>
      match fs.audioDuration audio_path with
      | none => .error .notFound
      | some dur =>
        match create_movie_sequence ((get_image_files shortListing).map (fun e => e.name))
            ((get_image_files longListing).map (fun e => e.name)) dur long_duration
            short_start_duration short_end_duration short_acceleration with
        | .error _ => .error .emptyInput
        | .ok r => .ok r

/-- A file system with no directories and no audio files. -/
def emptyFileSystem : FileSystem :=
  ⟨fun _ => none, fun _ => none⟩

/-- Helper: the value 0.5 ^ (2 : ℝ) as a real power equals 0.25. -/
lemma rpow_half_two : (0.5 : ℝ) ^ (2 : ℝ) = 0.25 := by
  rw [show (2 : ℝ) = ((2 : ℕ) : ℝ) by norm_num, Real.rpow_natCast]
  norm_num

/-- Helper: the value 0.5 ^ (4 : ℝ) as a real power equals 0.0625. -/
lemma rpow_half_four : (0.5 : ℝ) ^ (4 : ℝ) = 0.0625 := by
  rw [show (4 : ℝ) = ((4 : ℕ) : ℝ) by norm_num, Real.rpow_natCast]
  norm_num

/-- C2: evaluation of the spec-modelled duration function at the inputs the
claim and the repository tests exercise.  With startDuration 1.0 and
endDuration 0.2, the spec formula t = progress ** acceleration yields 0.8 at
progress 0.5 with acceleration 2.0 and 0.95 at acceleration 4.0, so the value
is strictly greater than the linear 0.6 and increases with acceleration —
the opposite of what the claim and the tests
(test_calculate_progressive_duration_with_acceleration) require. -/
theorem C2_spec_formula_contradicts_tests :
    calculate_progressive_duration 0.5 1.0 0.2 2.0 = 0.8 ∧
    calculate_progressive_duration 0.5 1.0 0.2 4.0 = 0.95 ∧
    ¬ (calculate_progressive_duration 0.5 1.0 0.2 2.0 < 0.6) ∧
    ¬ (calculate_progressive_duration 0.5 1.0 0.2 4.0 <
        calculate_progressive_duration 0.5 1.0 0.2 2.0) := by
  have h2 : calculate_progressive_duration 0.5 1.0 0.2 2.0 = 0.8 := by
    unfold calculate_progressive_duration
    rw [show (2.0 : ℝ) = (2 : ℝ) by norm_num, rpow_half_two]
    norm_num
  have h4 : calculate_progressive_duration 0.5 1.0 0.2 4.0 = 0.95 := by
    unfold calculate_progressive_duration
    rw [show (4.0 : ℝ) = (4 : ℝ) by norm_num, rpow_half_four]
    norm_num
  refine ⟨h2, h4, ?_, ?_⟩
  · rw [h2]; norm_num
  · rw [h2, h4]; norm_num

/-- C3 counterexample: the claimed identification of
calculate_progressive_duration with the reference formula
s + (e - s) * p ** a cannot hold of the program, because the repository
tests demand a value strictly below the linear midpoint at acceleration 2.0,
while the reference formula produces 0.8 > 0.6 there: at the concrete input
(0.5, 1.0, 0.2, 2.0) the reference formula violates the test assertion. -/
theorem C3_reference_formula_fails_acceleration_test :
    calculate_progressive_duration 0.5 1.0 0.2 2.0 = 0.8 ∧
    calculate_progressive_duration 0.5 1.0 0.2 1.0 = 0.6 ∧
    ¬ (calculate_progressive_duration 0.5 1.0 0.2 2.0 <
        calculate_progressive_duration 0.5 1.0 0.2 1.0) := by
  have h2 : calculate_progressive_duration 0.5 1.0 0.2 2.0 = 0.8 := by
    unfold calculate_progressive_duration
    rw [show (2.0 : ℝ) = (2 : ℝ) by norm_num, rpow_half_two]
    norm_num
  have h1 : calculate_progressive_duration 0.5 1.0 0.2 1.0 = 0.6 := by
    unfold calculate_progressive_duration
    rw [show (1.0 : ℝ) = (1 : ℝ) by norm_num, Real.rpow_one]
    norm_num
  refine ⟨h2, h1, ?_⟩
  rw [h2, h1]; norm_num

/-- C3 amended: restricted to acceleration 1.0 — the regime the cited test
lines actually check — calculate_progressive_duration agrees with the
reference definition, which there collapses to linear interpolation
s + (e - s) * p; in particular at progress 0.5 with startDuration 1.0 and
endDuration 0.2 the value is exactly 0.6. -/
theorem C3_linear_case_matches_reference :
    (∀ p s e : ℝ, calculate_progressive_duration p s e 1.0 = s + (e - s) * p) ∧
    calculate_progressive_duration 0.5 1.0 0.2 1.0 = 0.6 := by
  constructor
  · intro p s e
    unfold calculate_progressive_duration
    rw [show (1.0 : ℝ) = (1 : ℝ) by norm_num, Real.rpow_one]
  · unfold calculate_progressive_duration
    rw [show (1.0 : ℝ) = (1 : ℝ) by norm_num, Real.rpow_one]
    norm_num

/-- C4: the spec-modelled duration function hits its endpoints exactly —
value s at progress 0 and value e at progress 1 for any positive s, e and
acceleration — and is the constant s whenever the two bounds coincide,
for every progress in the unit interval and every positive acceleration. -/
theorem C4_endpoints_and_constant (s e a : ℝ) (hs : 0 < s) (he : 0 < e) (ha : 0 < a) :
    calculate_progressive_duration 0 s e a = s ∧
    calculate_progressive_duration 1 s e a = e ∧
    (∀ p : ℝ, 0 ≤ p → p ≤ 1 → calculate_progressive_duration p s s a = s) := by
  refine ⟨?_, ?_, ?_⟩
  · unfold calculate_progressive_duration
    rw [Real.zero_rpow (ne_of_gt ha)]
    ring
  · unfold calculate_progressive_duration
    rw [Real.one_rpow]
    ring
  · intro p _ _
    unfold calculate_progressive_duration
    ring

/-- C4 witness: the endpoint and constancy guarantees instantiated at the
concrete configuration s = 2, e = 3, a = 1. -/
theorem C4_endpoints_and_constant_witness :
    (0 : ℝ) < 2 ∧ (0 : ℝ) < 3 ∧ (0 : ℝ) < 1 ∧
    (calculate_progressive_duration 0 2 3 1 = 2 ∧
     calculate_progressive_duration 1 2 3 1 = 3 ∧
     (∀ p : ℝ, 0 ≤ p → p ≤ 1 → calculate_progressive_duration p 2 2 1 = 2)) :=
  ⟨by norm_num, by norm_num, by norm_num,
    C4_endpoints_and_constant 2 3 1 (by norm_num) (by norm_num) (by norm_num)⟩

/-- Unfolding equation of the loop at positive fuel. -/
lemma loop_succ (S L : List String) (T ld ss se sa : ℝ) (n si li : ℕ) (acc : ℝ) (flag : Bool) :
    create_movie_sequence_loop S L T ld ss se sa (n + 1) si li acc flag =
      loopBody S L T ld ss se sa (create_movie_sequence_loop S L T ld ss se sa n)
        si li acc flag := rfl

/-- Helper: the progressive duration never falls below the smaller of its two
bounds while progress stays in the unit interval. -/
lemma min_le_calculate_progressive_duration (p ss se sa : ℝ)
    (hp0 : 0 ≤ p) (hp1 : p ≤ 1) (hsa : 0 ≤ sa) :
    min ss se ≤ calculate_progressive_duration p ss se sa := by
  have ht0 : 0 ≤ p ^ sa := Real.rpow_nonneg hp0 sa
  have ht1 : p ^ sa ≤ 1 := Real.rpow_le_one hp0 hp1 hsa
  unfold calculate_progressive_duration
  rcases le_total ss se with h | h
  · rw [min_eq_left h]
    nlinarith [mul_nonneg (sub_nonneg.mpr h) ht0]
  · rw [min_eq_right h]
    nlinarith [mul_nonneg (sub_nonneg.mpr h) (sub_nonneg.mpr ht1)]

/-- Helper: core invariant of the Sequence Builder loop.  With enough fuel
the loop emits equally many files and durations, the durations sum to
exactly the remaining time, and every duration is strictly positive. -/
lemma loop_spec (S L : List String) (T ld ss se sa : ℝ)
    (hT : 0 < T) (hld : 0 < ld) (hss : 0 < ss) (hse : 0 < se) (hsa : 0 < sa) :
    ∀ (fuel si li : ℕ) (acc : ℝ) (flag : Bool),
      0 ≤ acc → acc < T →
      T - acc ≤ (fuel : ℝ) * min ld (min ss se) →
      (create_movie_sequence_loop S L T ld ss se sa fuel si li acc flag).1.length =
        (create_movie_sequence_loop S L T ld ss se sa fuel si li acc flag).2.length ∧
      (create_movie_sequence_loop S L T ld ss se sa fuel si li acc flag).2.sum = T - acc ∧
      ∀ d ∈ (create_movie_sequence_loop S L T ld ss se sa fuel si li acc flag).2, 0 < d := by
  intro fuel
  induction fuel with
  | zero =>
      intro si li acc flag hacc0 haccT hfuel
      exfalso
      push_cast at hfuel
      rw [zero_mul] at hfuel
      linarith
  | succ n ih =>
      intro si li acc flag hacc0 haccT hfuel
      have hmin : 0 < min ld (min ss se) := lt_min hld (lt_min hss hse)
      have hfuel2 : T - acc ≤ ((n : ℝ) + 1) * min ld (min ss se) := by
        push_cast at hfuel
        linarith
      rw [loop_succ]
      unfold loopBody
      rw [if_pos haccT]
      by_cases hpick : S = [] ∨ (flag = true ∧ L ≠ [])
      · rw [if_pos hpick]
        by_cases hdone : T ≤ acc + ld
        · rw [if_pos hdone]
          refine ⟨rfl, by simp, ?_⟩
          intro d hd
          simp at hd
          subst hd
          linarith
        · rw [if_neg hdone]
          have hlt : acc + ld < T := lt_of_not_le hdone
          have hrec := ih si (li + 1) (acc + ld) false (by linarith) hlt (by
            have h1 : min ld (min ss se) ≤ ld := min_le_left _ _
            nlinarith)
          refine ⟨by simp [hrec.1], by simp [hrec.2.1]; ring, ?_⟩
          intro d hd
          simp at hd
          rcases hd with h | h
          · subst h; exact hld
          · exact hrec.2.2 d h
      · rw [if_neg hpick]
        have hp0 : 0 ≤ acc / T := div_nonneg hacc0 hT.le
        have hp1 : acc / T ≤ 1 := by
          rw [div_le_one hT]
          exact haccT.le
        have hd0 : min ss se ≤ calculate_progressive_duration (acc / T) ss se sa :=
          min_le_calculate_progressive_duration (acc / T) ss se sa hp0 hp1 hsa.le
        have hdpos : 0 < calculate_progressive_duration (acc / T) ss se sa :=
          lt_of_lt_of_le (lt_min hss hse) hd0
        by_cases hdone : T ≤ acc + calculate_progressive_duration (acc / T) ss se sa
        · rw [if_pos hdone]
          refine ⟨rfl, by simp, ?_⟩
          intro d hd
          simp at hd
          subst hd
          linarith
        · rw [if_neg hdone]
          have hlt : acc + calculate_progressive_duration (acc / T) ss se sa < T :=
            lt_of_not_le hdone
          have hrec := ih (si + 1) li (acc + calculate_progressive_duration (acc / T) ss se sa)
            true (by linarith) hlt (by
            have h1 : min ld (min ss se) ≤ min ss se := min_le_right _ _
            nlinarith)
          refine ⟨by simp [hrec.1], by simp [hrec.2.1]; ring, ?_⟩
          intro d hd
          simp at hd
          rcases hd with h | h
          · subst h; exact hdpos
          · exact hrec.2.2 d h

/-- Helper: the fuel chosen by create_movie_sequence is large enough for the
loop invariant. -/
lemma fuel_sufficient (T d : ℝ) (hd : 0 < d) :
    T ≤ ((Nat.ceil (T / d) + 1 : ℕ) : ℝ) * d := by
  have h1 : T / d ≤ (Nat.ceil (T / d) : ℝ) := Nat.le_ceil _
  have h2 : (T / d) * d = T := div_mul_cancel₀ T (ne_of_gt hd)
  have h3 : (T / d) * d ≤ (Nat.ceil (T / d) : ℝ) * d :=
    mul_le_mul_of_nonneg_right h1 hd.le
  push_cast
  nlinarith

/-- C1: for every valid input — pools not both empty, positive target
duration, positive timing configuration — create_movie_sequence succeeds,
returns equally many files and durations, and the durations sum to within
strictly less than 1.0 second of the target (in this model they sum to the
target exactly, since the final entry is trimmed to land on it). -/
theorem C1_sequence_lengths_and_total (S L : List String) (T ld ss se sa : ℝ)
    (hpool : ¬ (S = [] ∧ L = [])) (hT : 0 < T)
    (hld : 0 < ld) (hss : 0 < ss) (hse : 0 < se) (hsa : 0 < sa) :
    ∃ fs ds, create_movie_sequence S L T ld ss se sa = .ok (fs, ds) ∧
      fs.length = ds.length ∧ |ds.sum - T| < 1.0 := by
  have hmin : 0 < min ld (min ss se) := lt_min hld (lt_min hss hse)
  have hspec := loop_spec S L T ld ss se sa hT hld hss hse hsa
    (sequenceFuel T ld ss se) 0 0 0 false le_rfl hT (by
      rw [sub_zero]
      exact fuel_sufficient T (min ld (min ss se)) hmin)
  have hcond : ¬ ((S = [] ∧ L = []) ∨ T ≤ 0) := by
    rintro (h | h)
    · exact hpool h
    · linarith
  refine ⟨(create_movie_sequence_loop S L T ld ss se sa (sequenceFuel T ld ss se) 0 0 0 false).1,
      (create_movie_sequence_loop S L T ld ss se sa (sequenceFuel T ld ss se) 0 0 0 false).2,
      ?_, hspec.1, ?_⟩
  · unfold create_movie_sequence
    rw [if_neg hcond]
  · rw [hspec.2.1]
    rw [sub_zero, sub_self, abs_zero]
    norm_num

/-- C1 witness: the guarantee instantiated at the one-image short pool,
empty long pool, target 3.0 seconds and all-ones timing configuration. -/
theorem C1_sequence_lengths_and_total_witness :
    ¬ ((["a"] : List String) = [] ∧ ([] : List String) = []) ∧
    (0 : ℝ) < 3 ∧ (0 : ℝ) < 2 ∧ (0 : ℝ) < 1 ∧ (0 : ℝ) < 1 ∧ (0 : ℝ) < 1 ∧
    (∃ fs ds, create_movie_sequence ["a"] [] 3 2 1 1 1 = .ok (fs, ds) ∧
      fs.length = ds.length ∧ |ds.sum - 3| < 1.0) :=
  ⟨by simp, by norm_num, by norm_num, by norm_num, by norm_num, by norm_num,
    C1_sequence_lengths_and_total ["a"] [] 3 2 1 1 1 (by simp) (by norm_num)
      (by norm_num) (by norm_num) (by norm_num) (by norm_num)⟩

/-- C5: every duration the Sequence Builder emits for an included image is
strictly positive, for all valid pools and target durations, wraparound
included — no zero or negative duration is ever emitted. -/
theorem C5_durations_strictly_positive (S L : List String) (T ld ss se sa : ℝ)
    (hpool : ¬ (S = [] ∧ L = [])) (hT : 0 < T)
    (hld : 0 < ld) (hss : 0 < ss) (hse : 0 < se) (hsa : 0 < sa) :
    ∃ fs ds, create_movie_sequence S L T ld ss se sa = .ok (fs, ds) ∧
      ∀ d ∈ ds, 0 < d := by
  have hmin : 0 < min ld (min ss se) := lt_min hld (lt_min hss hse)
  have hspec := loop_spec S L T ld ss se sa hT hld hss hse hsa
    (sequenceFuel T ld ss se) 0 0 0 false le_rfl hT (by
      rw [sub_zero]
      exact fuel_sufficient T (min ld (min ss se)) hmin)
  have hcond : ¬ ((S = [] ∧ L = []) ∨ T ≤ 0) := by
    rintro (h | h)
    · exact hpool h
    · linarith
  refine ⟨(create_movie_sequence_loop S L T ld ss se sa (sequenceFuel T ld ss se) 0 0 0 false).1,
      (create_movie_sequence_loop S L T ld ss se sa (sequenceFuel T ld ss se) 0 0 0 false).2,
      ?_, hspec.2.2⟩
  unfold create_movie_sequence
  rw [if_neg hcond]

/-- C5 witness: strict positivity of all emitted durations at the concrete
scenario of ten short images, two long images, target 10.0, long duration
2.0, short durations from 1.0 down to 0.2, acceleration 1.0. -/
theorem C5_durations_strictly_positive_witness :
    ¬ ((["s0", "s1", "s2", "s3", "s4", "s5", "s6", "s7", "s8", "s9"] : List String) = [] ∧
        (["l0", "l1"] : List String) = []) ∧
    (0 : ℝ) < 10 ∧ (0 : ℝ) < 2 ∧ (0 : ℝ) < 1 ∧ (0 : ℝ) < 0.2 ∧ (0 : ℝ) < 1 ∧
    (∃ fs ds,
      create_movie_sequence ["s0", "s1", "s2", "s3", "s4", "s5", "s6", "s7", "s8", "s9"]
        ["l0", "l1"] 10 2 1 0.2 1 = .ok (fs, ds) ∧ ∀ d ∈ ds, 0 < d) :=
  ⟨by simp, by norm_num, by norm_num, by norm_num, by norm_num, by norm_num,
    C5_durations_strictly_positive
      ["s0", "s1", "s2", "s3", "s4", "s5", "s6", "s7", "s8", "s9"] ["l0", "l1"]
      10 2 1 0.2 1 (by simp) (by norm_num) (by norm_num) (by norm_num) (by norm_num)
      (by norm_num)⟩

/-- C6: create_movie_sequence fails with EmptyInputError exactly when both
pools are empty or the target duration is at most zero; in particular the
call with two empty pools fails with EmptyInputError. -/
theorem C6_empty_input_error :
    (∀ (S L : List String) (T ld ss se sa : ℝ),
      create_movie_sequence S L T ld ss se sa = .error .emptyInput ↔
        (S = [] ∧ L = []) ∨ T ≤ 0) ∧
    create_movie_sequence [] [] 6 2 1 0.2 1 = .error .emptyInput := by
  constructor
  · intro S L T ld ss se sa
    unfold create_movie_sequence
    by_cases h : (S = [] ∧ L = []) ∨ T ≤ 0
    · rw [if_pos h]
      simp [h]
    · rw [if_neg h]
      simp [h]
  · unfold create_movie_sequence
    rw [if_pos (Or.inl ⟨rfl, rfl⟩)]

/-- Helper: with an empty short pool the loop draws every entry from the
long pool in cyclic order starting at the current long index, every duration
except possibly the last is exactly the long duration, and no duration
exceeds the long duration. -/
lemma loop_long_only (L : List String) (T ld ss se sa : ℝ)
    (hld : 0 < ld) :
    ∀ (fuel si li : ℕ) (acc : ℝ) (flag : Bool),
      0 ≤ acc → acc < T →
      T - acc ≤ (fuel : ℝ) * ld →
      (create_movie_sequence_loop [] L T ld ss se sa fuel si li acc flag).1 =
        (List.range
            (create_movie_sequence_loop [] L T ld ss se sa fuel si li acc flag).1.length).map
          (fun j => L.getD ((li + j) % L.length) "") ∧
      (∀ i, i + 1 <
          (create_movie_sequence_loop [] L T ld ss se sa fuel si li acc flag).2.length →
        (create_movie_sequence_loop [] L T ld ss se sa fuel si li acc flag).2.getD i 0 = ld) ∧
      (∀ i,
        (create_movie_sequence_loop [] L T ld ss se sa fuel si li acc flag).2.getD i 0 ≤ ld) := by
  intro fuel
  induction fuel with
  | zero =>
      intro si li acc flag hacc0 haccT hfuel
      exfalso
      push_cast at hfuel
      rw [zero_mul] at hfuel
      linarith
  | succ n ih =>
      intro si li acc flag hacc0 haccT hfuel
      have hfuel2 : T - acc ≤ ((n : ℝ) + 1) * ld := by
        push_cast at hfuel
        linarith
      have hpick : ([] : List String) = [] ∨ (flag = true ∧ L ≠ []) := Or.inl rfl
      rw [loop_succ]
      unfold loopBody
      rw [if_pos haccT, if_pos hpick]
      by_cases hdone : T ≤ acc + ld
      · rw [if_pos hdone]
        refine ⟨by simp [List.range_succ], ?_, ?_⟩
        · intro i hi
          simp at hi
        · intro i
          match i with
          | 0 => simp; linarith
          | j + 1 => simp [List.getD]; linarith
      · rw [if_neg hdone]
        have hlt : acc + ld < T := lt_of_not_le hdone
        have hrec := ih si (li + 1) (acc + ld) false (by linarith) hlt (by
          linarith)
        refine ⟨?_, ?_, ?_⟩
        · simp only []
          rw [List.length_cons, List.range_succ_eq_map, List.map_cons, List.map_map]
          refine List.cons_eq_cons.mpr ⟨by simp, ?_⟩
          conv_lhs => rw [hrec.1]
          apply List.map_congr_left
          intro j hj
          simp only [Function.comp_apply]
          have harg : li + 1 + j = li + j.succ := by omega
          rw [harg]
        · intro i hi
          match i with
          | 0 => simp
          | j + 1 =>
              simp only [List.getD_cons_succ]
              apply hrec.2.1
              simp at hi
              omega
        · intro i
          match i with
          | 0 => simp
          | j + 1 =>
              simp only [List.getD_cons_succ]
              exact hrec.2.2 j

/-- C7: with an empty short pool and a non-empty long pool, the built
sequence consists only of long-pool entries repeated cyclically in pool
order, each with duration exactly longDuration except possibly the final
entry, whose clamped duration never exceeds longDuration, and the durations
sum to the target. -/
theorem C7_long_only_sequence (L : List String) (T ld ss se sa : ℝ)
    (hL : L ≠ []) (hT : 0 < T)
    (hld : 0 < ld) (hss : 0 < ss) (hse : 0 < se) (hsa : 0 < sa) :
    ∃ fs ds, create_movie_sequence [] L T ld ss se sa = .ok (fs, ds) ∧
      fs = (List.range fs.length).map (fun j => L.getD (j % L.length) "") ∧
      (∀ i, i + 1 < ds.length → ds.getD i 0 = ld) ∧
      (∀ i, ds.getD i 0 ≤ ld) ∧
      ds.sum = T := by
  have hmin : 0 < min ld (min ss se) := lt_min hld (lt_min hss hse)
  have hfuel : T - 0 ≤ ((sequenceFuel T ld ss se : ℕ) : ℝ) * ld := by
    rw [sub_zero]
    calc T ≤ ((sequenceFuel T ld ss se : ℕ) : ℝ) * min ld (min ss se) :=
          fuel_sufficient T (min ld (min ss se)) hmin
      _ ≤ ((sequenceFuel T ld ss se : ℕ) : ℝ) * ld := by
          apply mul_le_mul_of_nonneg_left (min_le_left _ _)
          positivity
  have hlong := loop_long_only L T ld ss se sa hld
    (sequenceFuel T ld ss se) 0 0 0 false le_rfl hT hfuel
  have hspec := loop_spec [] L T ld ss se sa hT hld hss hse hsa
    (sequenceFuel T ld ss se) 0 0 0 false le_rfl hT (by
      rw [sub_zero]
      exact fuel_sufficient T (min ld (min ss se)) hmin)
  have hcond : ¬ ((([] : List String) = [] ∧ L = []) ∨ T ≤ 0) := by
    rintro (h | h)
    · exact hL h.2
    · linarith
  refine ⟨(create_movie_sequence_loop [] L T ld ss se sa (sequenceFuel T ld ss se) 0 0 0 false).1,
      (create_movie_sequence_loop [] L T ld ss se sa (sequenceFuel T ld ss se) 0 0 0 false).2,
      ?_, ?_, hlong.2.1, hlong.2.2, ?_⟩
  · unfold create_movie_sequence
    rw [if_neg hcond]
  · have h0 := hlong.1
    simpa using h0
  · rw [hspec.2.1, sub_zero]

/-- C7 witness: the scenario of the claim with a one-image long pool, target
6.0 seconds and long duration 2.0. -/
theorem C7_long_only_sequence_witness :
    (["l0"] : List String) ≠ [] ∧ (0 : ℝ) < 6 ∧ (0 : ℝ) < 2 ∧
    (0 : ℝ) < 1 ∧ (0 : ℝ) < 0.2 ∧ (0 : ℝ) < 1 ∧
    (∃ fs ds, create_movie_sequence [] ["l0"] 6 2 1 0.2 1 = .ok (fs, ds) ∧
      fs = (List.range fs.length).map (fun j => (["l0"] : List String).getD (j % 1) "") ∧
      (∀ i, i + 1 < ds.length → ds.getD i 0 = 2) ∧
      (∀ i, ds.getD i 0 ≤ 2) ∧
      ds.sum = 6) :=
  ⟨by simp, by norm_num, by norm_num, by norm_num, by norm_num, by norm_num, by
    have h := C7_long_only_sequence ["l0"] 6 2 1 0.2 1 (by simp) (by norm_num)
      (by norm_num) (by norm_num) (by norm_num) (by norm_num)
    simpa using h⟩

/-- Helper: the square source resized into 1920 by 1080 is 1080 wide. -/
lemma resizedWidth_square : resizedWidth squareSource (1920, 1080) = 1080 := by
  unfold resizedWidth scaleFactor squareSource
  norm_num [min_def, round_ofNat]
  decide

/-- Helper: the square source is pasted 420 pixels from the left edge. -/
lemma pasteOffsetX_square : pasteOffsetX squareSource (1920, 1080) = 420 := by
  unfold pasteOffsetX resizedWidth scaleFactor squareSource
  norm_num [min_def, round_ofNat]
  decide

/-- Helper: the wide source is pasted 492 pixels from the top edge. -/
lemma pasteOffsetY_wide : pasteOffsetY wideSource (1920, 1080) = 492 := by
  unfold pasteOffsetY resizedHeight scaleFactor wideSource
  norm_num [min_def, round_ofNat]
  decide

/-- Helper: the tall source is pasted 933 pixels from the left edge. -/
lemma pasteOffsetX_tall : pasteOffsetX tallSource (1920, 1080) = 933 := by
  unfold pasteOffsetX resizedWidth scaleFactor tallSource
  norm_num [min_def, round_ofNat]
  decide

/-- C8: in the buffer returned by resize_image_to_standard, every pixel
outside the centered pasted region — left of, right of, above or below it —
is exactly black (0, 0, 0), which covers the letterbox bands of a wide
source and the pillarbox bands of a tall source alike. -/
theorem C8_outside_pasted_region_black (img : SourceImage) (target : ℕ × ℕ) (y x : ℕ)
    (hout : x < pasteOffsetX img target ∨
        pasteOffsetX img target + resizedWidth img target ≤ x ∨
        y < pasteOffsetY img target ∨
        pasteOffsetY img target + resizedHeight img target ≤ y) :
    (resize_image_to_standard img target).pixel y x = (0, 0, 0) := by
  unfold resize_image_to_standard
  simp only []
  rw [if_neg]
  rintro ⟨h1, h2, h3, h4⟩
  rcases hout with h | h | h | h <;> omega

/-- C8 witness: the black-padding invariant applied at the corner pixels
(0, 0) and (0, 1919) of the normalized square source in a 1920 by 1080
frame, at the vertical letterbox midpoint column of the wide source, and at
the horizontal pillarbox midpoint row of the tall source. -/
theorem C8_outside_pasted_region_black_witness :
    0 < pasteOffsetX squareSource (1920, 1080) ∧
    pasteOffsetX squareSource (1920, 1080) + resizedWidth squareSource (1920, 1080) ≤ 1919 ∧
    0 < pasteOffsetY wideSource (1920, 1080) ∧
    0 < pasteOffsetX tallSource (1920, 1080) ∧
    (resize_image_to_standard squareSource (1920, 1080)).pixel 0 0 = (0, 0, 0) ∧
    (resize_image_to_standard squareSource (1920, 1080)).pixel 0 1919 = (0, 0, 0) ∧
    (resize_image_to_standard wideSource (1920, 1080)).pixel 0 960 = (0, 0, 0) ∧
    (resize_image_to_standard tallSource (1920, 1080)).pixel 540 0 = (0, 0, 0) :=
  ⟨by simp [pasteOffsetX_square], by simp [pasteOffsetX_square, resizedWidth_square],
    by simp [pasteOffsetY_wide], by simp [pasteOffsetX_tall],
    C8_outside_pasted_region_black squareSource (1920, 1080) 0 0
      (Or.inl (by simp [pasteOffsetX_square])),
    C8_outside_pasted_region_black squareSource (1920, 1080) 0 1919
      (Or.inr (Or.inl (by simp [pasteOffsetX_square, resizedWidth_square]))),
    C8_outside_pasted_region_black wideSource (1920, 1080) 0 960
      (Or.inr (Or.inr (Or.inl (by simp [pasteOffsetY_wide])))),
    C8_outside_pasted_region_black tallSource (1920, 1080) 540 0
      (Or.inl (by simp [pasteOffsetX_tall]))⟩

/-- C9: for every readable source image — positive dimensions and 8-bit
channels, transparency channel included — the Normalizer returns a buffer
whose width and height are exactly the target width and height, whose
pixels are 3-channel by construction, and whose channel values all stay
below 256. -/
theorem C9_shape_and_channels (img : SourceImage) (target : ℕ × ℕ)
    (hw : 0 < img.width) (hh : 0 < img.height)
    (hpix : ∀ y x, (img.pixel y x).1 < 256 ∧ (img.pixel y x).2.1 < 256 ∧
        (img.pixel y x).2.2.1 < 256 ∧ (img.pixel y x).2.2.2 < 256) :
    (resize_image_to_standard img target).width = target.1 ∧
    (resize_image_to_standard img target).height = target.2 ∧
    ∀ y x, ((resize_image_to_standard img target).pixel y x).1 < 256 ∧
      ((resize_image_to_standard img target).pixel y x).2.1 < 256 ∧
      ((resize_image_to_standard img target).pixel y x).2.2 < 256 := by
  refine ⟨rfl, rfl, ?_⟩
  intro y x
  unfold resize_image_to_standard
  simp only []
  by_cases h : pasteOffsetX img target ≤ x ∧
      x < pasteOffsetX img target + resizedWidth img target ∧
      pasteOffsetY img target ≤ y ∧ y < pasteOffsetY img target + resizedHeight img target
  · rw [if_pos h]
    unfold flattenPixel
    have hp := hpix ((y - pasteOffsetY img target) * img.height / resizedHeight img target)
      ((x - pasteOffsetX img target) * img.width / resizedWidth img target)
    exact ⟨hp.1, hp.2.1, hp.2.2.1⟩
  · rw [if_neg h]
    norm_num

/-- C9 witness: the shape and channel guarantee at the RGBA square source
with half-transparent red pixels and the default 1920 by 1080 target. -/
theorem C9_shape_and_channels_witness :
    0 < rgbaSource.width ∧ 0 < rgbaSource.height ∧
    (∀ y x, (rgbaSource.pixel y x).1 < 256 ∧ (rgbaSource.pixel y x).2.1 < 256 ∧
      (rgbaSource.pixel y x).2.2.1 < 256 ∧ (rgbaSource.pixel y x).2.2.2 < 256) ∧
    ((resize_image_to_standard rgbaSource (1920, 1080)).width = 1920 ∧
     (resize_image_to_standard rgbaSource (1920, 1080)).height = 1080 ∧
     ∀ y x, ((resize_image_to_standard rgbaSource (1920, 1080)).pixel y x).1 < 256 ∧
       ((resize_image_to_standard rgbaSource (1920, 1080)).pixel y x).2.1 < 256 ∧
       ((resize_image_to_standard rgbaSource (1920, 1080)).pixel y x).2.2 < 256) :=
  ⟨by norm_num [rgbaSource], by norm_num [rgbaSource],
    fun _ _ => by norm_num [rgbaSource],
    C9_shape_and_channels rgbaSource (1920, 1080) (by norm_num [rgbaSource])
      (by norm_num [rgbaSource]) (fun _ _ => by norm_num [rgbaSource])⟩

/-- C10: the directory scan of an existing directory holding no image files
returns the empty list rather than raising, while the failure for a missing
pool directory is raised as notFound at the orchestration boundary. -/
theorem C10_empty_scan_and_missing_directory :
    (∀ listing : List FileEntry, (∀ e ∈ listing, e.ext ∉ IMAGE_EXTENSIONS) →
      get_image_files listing = []) ∧
    (∀ (fs : FileSystem) (sd ld ap : String) (l s e a : ℝ),
      fs.dirListing sd = none →
      create_movie fs sd ld ap l s e a = .error .notFound) := by
  constructor
  · intro listing h
    unfold get_image_files
    have hfil : listing.filter (fun e => IMAGE_EXTENSIONS.contains e.ext) = [] := by
      rw [List.filter_eq_nil_iff]
      intro e he
      simpa using h e he
    rw [hfil]
    rfl
  · intro fs sd ld ap l s e a h
    unfold create_movie
    rw [h]

/-- C10 witness: the scan applied to the empty listing, and the
orchestrator applied to a file system with no directories at all. -/
theorem C10_empty_scan_and_missing_directory_witness :
    ((∀ e ∈ ([] : List FileEntry), e.ext ∉ IMAGE_EXTENSIONS) ∧
      get_image_files [] = []) ∧
    (emptyFileSystem.dirListing "images_short" = none ∧
      create_movie emptyFileSystem "images_short" "images_long" "audio.mp3" 3 0.5 0.1 1 =
        .error .notFound) :=
  ⟨⟨by simp, C10_empty_scan_and_missing_directory.1 [] (by simp)⟩,
    ⟨rfl, C10_empty_scan_and_missing_directory.2 emptyFileSystem
      "images_short" "images_long" "audio.mp3" 3 0.5 0.1 1 rfl⟩⟩

end Montagerizer
